import Mathlib

/-!
Verification development for the fitness-dashboard pipeline (`src/main.py`).

The program is embedded shallowly:

* a table is an association list from column names to columns of cells;
* a cell is `Option ℚ`: `some q` for a cell whose text coerces to the
  number `q` (`pd.to_numeric(..., errors='coerce')`), `none` for a cell
  that fails coercion (pandas `NaN`);
* `preprocess_data` models lines 22-48: the projection `df[numerical_cols]`
  (which raises `KeyError` when a requested label is absent, modelled as
  `Except.error`), coercion, and `fillna` with the column means (a column
  whose mean is `NaN` is left untouched by `fillna`);
* `corr` models `DataFrame.corr()` for one pair of columns: Pearson
  correlation over the pairwise-complete rows, `none` when a variance in
  the denominator vanishes (pandas `NaN`).  A correlation value is kept in
  exact arithmetic as the pair (covariance, product of variances) with the
  real value `cov / √den`; sorting compares these pairs exactly the way
  the real values compare;
* `analyze_and_visualize` models lines 50-106 as the list of UI events the
  function emits.
-/

/-- A cell after numeric coercion: `none` is pandas `NaN`. -/
abbrev Cell := Option ℚ

/-- A labeled table: association list of column name to column. -/
abbrev Table := List (String × List Cell)

/-- The fixed allow-list of feature columns (src/main.py lines 31-33). -/
def numerical_cols : List String :=
  ["신장", "체중", "체지방율", "허리둘레", "이완기혈압_최저", "수축기혈압_최고",
   "악력_좌", "악력_우", "윗몸말아올리기", "제자리 멀리뛰기", "BMI",
   "상대악력", "허리둘레-신장비", "반복옆뛰기"]

/-- The target feature (src/main.py line 56). -/
def targetCol : String := "체지방율"

/-- The column names of a table. -/
def colNames (df : Table) : List String := df.map Prod.fst

/-- Arithmetic mean of a list of rationals (`0` for the empty list,
matching the junk value `0/0 = 0` of rational division). -/
def meanL (xs : List ℚ) : ℚ := xs.sum / (xs.length : ℚ)

/-- The non-missing cells of a column (`pandas` skips `NaN` in `mean`). -/
def presentCells (cells : List Cell) : List ℚ := cells.filterMap id

/-- `fillna` with the column mean on one column (src/main.py line 43):
when every cell is missing the mean is `NaN` and `fillna` fills nothing,
so the column is returned unchanged; otherwise every missing cell becomes
the mean of the non-missing cells. -/
def fillColumn (cells : List Cell) : List Cell :=
  let present := presentCells cells
  if present.isEmpty then cells
  else cells.map (fun c => some (c.getD (meanL present)))

/-- Lines 31-43 of src/main.py: project onto `numerical_cols`
(`df[numerical_cols]` raises `KeyError` when any label is missing),
coerce, and `fillna` with the column means. -/
def preprocess_data (df : Table) : Except String Table :=
  if numerical_cols.all (fun c => decide (c ∈ colNames df)) then
    .ok (numerical_cols.map (fun c => (c, fillColumn ((df.lookup c).getD []))))
  else .error "KeyError"

/- `colOf df c` abbreviates the same lookup `preprocess_data` performs. -/

/-- The rows where both columns have a non-missing cell
(pandas computes each correlation over the pairwise-complete rows). -/
def validPairs (xs ys : List Cell) : List (ℚ × ℚ) :=
  (xs.zip ys).filterMap fun ab =>
    match ab with
    | (some a, some b) => some (a, b)
    | _ => none

/-- Sum of products of deviations from the mean (an unnormalised
covariance; the `1/(n-1)` factors cancel in the correlation). -/
def covD (as bs : List ℚ) : ℚ :=
  ∑ i ∈ Finset.range (min as.length bs.length),
    (as.getD i 0 - meanL as) * (bs.getD i 0 - meanL bs)

/-- An exact representation of a defined (non-`NaN`) correlation value:
the value is `cov / √den` where `den` is the product of the two
(unnormalised) variances, which is positive exactly when the correlation
is defined. -/
structure CorrRep where
  cov : ℚ
  den : ℚ
  den_pos : 0 < den

instance : DecidableEq CorrRep := fun p q =>
  if h : p.cov = q.cov ∧ p.den = q.den then
    isTrue (by cases p; cases q; obtain ⟨h1, h2⟩ := h; cases h1; cases h2; rfl)
  else isFalse (fun he => h (by cases he; exact ⟨rfl, rfl⟩))

/-- Pearson correlation of two cell columns, as computed by
`DataFrame.corr()`: `none` (pandas `NaN`) when either variance over the
pairwise-complete rows is zero. -/
def mkCorr (cov den : ℚ) : Option CorrRep :=
  if h : 0 < den then some ⟨cov, den, h⟩ else none

def corr (xs ys : List Cell) : Option CorrRep :=
  mkCorr (covD ((validPairs xs ys).map Prod.fst) ((validPairs xs ys).map Prod.snd))
    (covD ((validPairs xs ys).map Prod.fst) ((validPairs xs ys).map Prod.fst) *
      covD ((validPairs xs ys).map Prod.snd) ((validPairs xs ys).map Prod.snd))

/-- The real value of a defined correlation. -/
noncomputable def corrVal (p : CorrRep) : ℝ := (p.cov : ℝ) / Real.sqrt (p.den : ℝ)

/-- Column of a table by name (empty when absent; the pipeline only uses
names that are present). -/
def colOf (df : Table) (nm : String) : List Cell := (df.lookup nm).getD []

/-- Entry of `df_numeric.corr()` (src/main.py line 62). -/
def correlation_matrix (df : Table) (a b : String) : Option CorrRep :=
  corr (colOf df a) (colOf df b)

/-- `correlation_matrix['체지방율']`: the target column of the matrix,
indexed by the table's column order. -/
def targetSeries (df : Table) : List (String × Option CorrRep) :=
  df.map (fun c => (c.1, corr c.2 (colOf df targetCol)))

/-- `p` sorts before or with `q` in a descending sort by signed value:
`cov_p / √den_p ≥ cov_q / √den_q`, decided by sign analysis and
cross-multiplied squares. -/
def sgnGeB (p q : CorrRep) : Bool :=
  if 0 ≤ p.cov then
    if q.cov ≤ 0 then true else decide (q.cov ^ 2 * p.den ≤ p.cov ^ 2 * q.den)
  else
    if 0 ≤ q.cov then false else decide (p.cov ^ 2 * q.den ≤ q.cov ^ 2 * p.den)

/-- Descending comparison by signed value with `NaN` sorted last
(`sort_values(ascending=False)`, `na_position='last'`). -/
def cmpSigned (a b : String × Option CorrRep) : Bool :=
  match a.2, b.2 with
  | some p, some q => sgnGeB p q
  | some _, none => true
  | none, none => true
  | none, some _ => false

/-- Descending comparison by absolute value with `NaN` sorted last:
`|cov_p| / √den_p ≥ |cov_q| / √den_q ↔ cov_q² · den_p ≤ cov_p² · den_q`. -/
def cmpAbs (a b : String × Option CorrRep) : Bool :=
  match a.2, b.2 with
  | some p, some q => decide (q.cov ^ 2 * p.den ≤ p.cov ^ 2 * q.den)
  | some _, none => true
  | none, none => true
  | none, some _ => false

/-- `cmpSigned` as a decidable relation (for the sort). -/
def sgnGeRel (a b : String × Option CorrRep) : Prop := cmpSigned a b = true

instance : DecidableRel sgnGeRel :=
  fun a b => inferInstanceAs (Decidable (cmpSigned a b = true))

/-- `cmpAbs` as a decidable relation (for the sort). -/
def absGeRel (a b : String × Option CorrRep) : Prop := cmpAbs a b = true

instance : DecidableRel absGeRel :=
  fun a b => inferInstanceAs (Decidable (cmpAbs a b = true))

/-- Line 65: `correlation_matrix['체지방율'].sort_values(ascending=False).drop('체지방율')`. -/
def target_corr (df : Table) : List (String × Option CorrRep) :=
  (List.insertionSort sgnGeRel (targetSeries df)).filter
    (fun x => x.1 ≠ targetCol)

/-- `.abs()` on a correlation value: the real value becomes `|cov| / √den`. -/
def absRep (p : CorrRep) : CorrRep := ⟨|p.cov|, p.den, p.den_pos⟩

/-- `target_corr.abs().sort_values(ascending=False)` (lines 68 and 70). -/
def rankedAbs (df : Table) : List (String × Option CorrRep) :=
  List.insertionSort absGeRel
    ((target_corr df).map (fun x => (x.1, x.2.map absRep)))

/-- Line 68: the ranking table shown, `head(10)` of the absolute ranking. -/
def displayTable (df : Table) : List (String × Option CorrRep) :=
  (rankedAbs df).take 10

/-- Line 70: the top-3 feature names by absolute correlation. -/
def highest_corr_features (df : Table) : List String :=
  ((rankedAbs df).take 3).map (·.1)

/-- Scatter point color (src/main.py line 95). -/
inductive PlotColor where
  | red
  | blue
deriving DecidableEq

/-- The UI events `analyze_and_visualize` emits, in order. -/
inductive Ev where
  | errorMissingTarget
  | header (s : String)
  | rankTable (rows : List (String × Option CorrRep))
  | success (names : List String)
  | heatmap
  | scatter (feature : String) (value : Option CorrRep) (color : PlotColor)
deriving DecidableEq

/-- `corr_value < 0` in line 95; on a float, `NaN < 0` is `False`, and a
defined value is negative exactly when its covariance is. -/
def isNegCell (v : Option CorrRep) : Bool :=
  match v with
  | some p => decide (p.cov < 0)
  | none => false

/-- One iteration of the scatter loop (lines 88-106): the value is
`target_corr[feature]` and the color is `red` when it is negative,
`blue` otherwise. -/
def scatterEv (tc : List (String × Option CorrRep)) (f : String) : Ev :=
  let v := (tc.lookup f).join
  Ev.scatter f v (if isNegCell v then PlotColor.red else PlotColor.blue)

/-- Lines 50-106 of src/main.py as the emitted event sequence: a missing
target short-circuits to the error banner; otherwise the ranking table,
the success banner, the heatmap and one scatter per top feature. -/
def analyze_and_visualize (df : Table) : List Ev :=
  if targetCol ∈ colNames df then
    Ev.header "체지방율 상관관계 분석" ::
    Ev.rankTable (displayTable df) ::
    Ev.success (highest_corr_features df) ::
    Ev.heatmap ::
    (highest_corr_features df).map (scatterEv (target_corr df))
  else [Ev.errorMissingTarget]

/-- `df.empty` of pandas: some axis has length zero. -/
def tableEmpty (t : Table) : Bool := t.isEmpty || t.all (·.2.isEmpty)

/-- Lines 127-132 of src/main.py, after a successful load: preprocess,
then analyze unless the numeric table is empty.  An exception escaping
`preprocess_data` propagates (`Except.error`): no banner is shown. -/
def runMain (df : Table) : Except String (List Ev) :=
  match preprocess_data df with
  | .error e => .error e
  | .ok t => .ok (if tableEmpty t then [] else analyze_and_visualize t)

/-! ### Association-list and list helpers -/

/-- In a table with no duplicate keys, `lookup` finds exactly the paired
value of any member. -/
theorem lookup_of_mem_nodup {β : Type} {l : List (String × β)}
    (hnd : (l.map Prod.fst).Nodup) {a : String} {b : β}
    (h : (a, b) ∈ l) : l.lookup a = some b := by
  induction l with
  | nil => cases h
  | cons hd tl ih =>
    obtain ⟨k, w⟩ := hd
    rcases List.mem_cons.mp h with heq | hmem
    · cases heq
      simp [List.lookup]
    · have hk : a ≠ k := by
        intro hak
        subst hak
        have : a ∈ tl.map Prod.fst := List.mem_map.mpr ⟨(a, b), hmem, rfl⟩
        exact (List.nodup_cons.mp hnd).1 this
      have hbeq : (a == k) = false := beq_eq_false_iff_ne.mpr hk
      simp only [List.lookup, hbeq]
      exact ih (List.nodup_cons.mp hnd).2 hmem

/-- `getD` with default `0` commutes with scaling. -/
theorem getD_map_mul (c : ℚ) (l : List ℚ) (i : ℕ) :
    (l.map (fun x => c * x)).getD i 0 = c * l.getD i 0 := by
  simp only [List.getD_eq_getElem?_getD, List.getElem?_map]
  rcases l[i]? with _ | a <;> simp

/-- Sum commutes with scaling. -/
theorem sum_map_mul (c : ℚ) (l : List ℚ) : (l.map (fun x => c * x)).sum = c * l.sum := by
  induction l with
  | nil => simp
  | cons a t ih => simp [ih, mul_add]

/-! ### Covariance lemmas -/

theorem covD_comm (as bs : List ℚ) : covD as bs = covD bs as := by
  unfold covD
  rw [Nat.min_comm]
  exact Finset.sum_congr rfl (fun i _ => mul_comm _ _)

theorem covD_self (as : List ℚ) :
    covD as as = ∑ i ∈ Finset.range as.length, (as.getD i 0 - meanL as) ^ 2 := by
  unfold covD
  rw [Nat.min_self]
  exact Finset.sum_congr rfl (fun i _ => (pow_two _).symm)

theorem covD_self_nonneg (as : List ℚ) : 0 ≤ covD as as := by
  rw [covD_self]
  exact Finset.sum_nonneg (fun i _ => sq_nonneg _)

/-- Cauchy-Schwarz for the unnormalised covariance of equal-length columns. -/
theorem covD_sq_le (as bs : List ℚ) (h : as.length = bs.length) :
    covD as bs ^ 2 ≤ covD as as * covD bs bs := by
  unfold covD
  rw [h, Nat.min_self]
  have := Finset.sum_mul_sq_le_sq_mul_sq (Finset.range bs.length)
    (fun i => as.getD i 0 - meanL as) (fun i => bs.getD i 0 - meanL bs)
  calc (∑ i ∈ Finset.range bs.length,
          (as.getD i 0 - meanL as) * (bs.getD i 0 - meanL bs)) ^ 2
      ≤ (∑ i ∈ Finset.range bs.length, (as.getD i 0 - meanL as) ^ 2) *
          ∑ i ∈ Finset.range bs.length, (bs.getD i 0 - meanL bs) ^ 2 := this
    _ = (∑ i ∈ Finset.range bs.length,
          (as.getD i 0 - meanL as) * (as.getD i 0 - meanL as)) *
          ∑ i ∈ Finset.range bs.length,
            (bs.getD i 0 - meanL bs) * (bs.getD i 0 - meanL bs) := by
        rw [Finset.sum_congr rfl (fun i _ => pow_two ((as.getD i 0 - meanL as))),
            Finset.sum_congr rfl (fun i _ => pow_two ((bs.getD i 0 - meanL bs)))]

/-! ### `validPairs` lemmas -/

theorem validPairs_self (xs : List Cell) :
    validPairs xs xs = (presentCells xs).map (fun a => (a, a)) := by
  induction xs with
  | nil => rfl
  | cons c t ih =>
    cases c with
    | none => simpa [validPairs, presentCells] using ih
    | some a => simpa [validPairs, presentCells] using ih

theorem validPairs_swap (xs ys : List Cell) :
    validPairs ys xs = (validPairs xs ys).map Prod.swap := by
  induction xs generalizing ys with
  | nil => cases ys <;> rfl
  | cons c t ih =>
    cases ys with
    | nil => rfl
    | cons d u =>
      cases c <;> cases d <;> simp [validPairs, List.zip_cons_cons] <;>
        simpa [validPairs] using ih u

/-! ### Correlation lemmas -/

/-- Extensionality for correlation representations (the positivity proof
is irrelevant). -/
theorem CorrRep.ext2 {p q : CorrRep} (h1 : p.cov = q.cov) (h2 : p.den = q.den) : p = q := by
  cases p; cases q; cases h1; cases h2; rfl

theorem corr_comm (xs ys : List Cell) : corr xs ys = corr ys xs := by
  unfold corr
  simp only [validPairs_swap xs ys, List.map_map]
  have h1 : (Prod.fst ∘ Prod.swap : ℚ × ℚ → ℚ) = Prod.snd := rfl
  have h2 : (Prod.snd ∘ Prod.swap : ℚ × ℚ → ℚ) = Prod.fst := rfl
  simp only [h1, h2]
  rw [covD_comm ((validPairs xs ys).map Prod.snd) ((validPairs xs ys).map Prod.fst),
      mul_comm (covD ((validPairs xs ys).map Prod.snd) ((validPairs xs ys).map Prod.snd))
        (covD ((validPairs xs ys).map Prod.fst) ((validPairs xs ys).map Prod.fst))]

/-- A defined correlation satisfies the Cauchy-Schwarz bound. -/
theorem corr_cov_sq_le {xs ys : List Cell} {p : CorrRep}
    (h : corr xs ys = some p) : p.cov ^ 2 ≤ p.den := by
  unfold corr mkCorr at h
  split_ifs at h with hpos
  cases h
  exact covD_sq_le _ _ (by simp)

/-- The two diagonal column copies of `validPairs` coincide. -/
theorem validPairs_self_proj (xs : List Cell) :
    (validPairs xs xs).map Prod.fst = presentCells xs
      ∧ (validPairs xs xs).map Prod.snd = presentCells xs := by
  rw [validPairs_self, List.map_map, List.map_map]
  have h1 : (Prod.fst ∘ fun a : ℚ => (a, a)) = id := rfl
  have h2 : (Prod.snd ∘ fun a : ℚ => (a, a)) = id := rfl
  rw [h1, h2, List.map_id]
  exact ⟨rfl, rfl⟩

/-- Variance (unnormalised) of the non-missing cells of one column. -/
def colVarQ (xs : List Cell) : ℚ := covD (presentCells xs) (presentCells xs)

/-- A diagonal entry is defined whenever the column variance is nonzero,
and its value representation is `(v, v * v)`. -/
theorem corr_self_of_var_ne {xs : List Cell} (h : colVarQ xs ≠ 0) :
    ∃ p, corr xs xs = some p ∧ p.cov = colVarQ xs ∧ p.den = colVarQ xs * colVarQ xs := by
  have hproj := validPairs_self_proj xs
  have hv : 0 < colVarQ xs := lt_of_le_of_ne (covD_self_nonneg _) (Ne.symm h)
  unfold corr mkCorr
  rw [hproj.1, hproj.2]
  have hpos : 0 < covD (presentCells xs) (presentCells xs) *
      covD (presentCells xs) (presentCells xs) := mul_pos hv hv
  rw [dif_pos hpos]
  exact ⟨_, rfl, rfl, rfl⟩

/-! ### Real-value lemmas for correlation representations -/

theorem abs_corrVal_le_one {p : CorrRep} (h : p.cov ^ 2 ≤ p.den) : |corrVal p| ≤ 1 := by
  have hd : (0:ℝ) < (p.den : ℝ) := by exact_mod_cast p.den_pos
  unfold corrVal
  rw [abs_div, abs_of_nonneg (Real.sqrt_nonneg _), div_le_one (Real.sqrt_pos.mpr hd)]
  calc |(p.cov : ℝ)| = Real.sqrt ((p.cov : ℝ) ^ 2) := (Real.sqrt_sq_eq_abs _).symm
    _ ≤ Real.sqrt (p.den : ℝ) := Real.sqrt_le_sqrt (by exact_mod_cast h)

/-- A defined correlation is negative exactly when its covariance is. -/
theorem corrVal_neg_iff (p : CorrRep) : corrVal p < 0 ↔ p.cov < 0 := by
  have hd : (0:ℝ) < (p.den:ℝ) := by exact_mod_cast p.den_pos
  unfold corrVal
  rw [div_neg_iff]
  constructor
  · rintro (⟨_, h2⟩ | ⟨h1, _⟩)
    · exact absurd h2 (not_lt.mpr (Real.sqrt_nonneg _))
    · exact_mod_cast h1
  · intro h
    exact Or.inr ⟨by exact_mod_cast h, Real.sqrt_pos.mpr hd⟩

/-- A correlation whose denominator is the square of its positive
covariance has value `1`. -/
theorem corrVal_one_of_sq {p : CorrRep} (hc : 0 < p.cov) (hd : p.den = p.cov * p.cov) :
    corrVal p = 1 := by
  unfold corrVal
  rw [hd]
  push_cast
  rw [Real.sqrt_mul_self (by exact_mod_cast hc.le)]
  exact div_self (by exact_mod_cast hc.ne')

/-- The cross-multiplied comparison decides the absolute-value order. -/
theorem corrVal_abs_le_of_cross {p q : CorrRep}
    (h : q.cov ^ 2 * p.den ≤ p.cov ^ 2 * q.den) : |corrVal q| ≤ |corrVal p| := by
  have hp : (0:ℝ) < (p.den:ℝ) := by exact_mod_cast p.den_pos
  have hq : (0:ℝ) < (q.den:ℝ) := by exact_mod_cast q.den_pos
  unfold corrVal
  rw [abs_div, abs_div, abs_of_nonneg (Real.sqrt_nonneg ((p.den:ℝ))),
      abs_of_nonneg (Real.sqrt_nonneg ((q.den:ℝ))),
      div_le_div_iff₀ (Real.sqrt_pos.mpr hq) (Real.sqrt_pos.mpr hp)]
  have h1 : (|(q.cov:ℝ)| * Real.sqrt (p.den:ℝ)) ^ 2
      ≤ (|(p.cov:ℝ)| * Real.sqrt (q.den:ℝ)) ^ 2 := by
    rw [mul_pow, mul_pow, sq_abs, sq_abs, Real.sq_sqrt hp.le, Real.sq_sqrt hq.le]
    exact_mod_cast h
  calc |(q.cov:ℝ)| * Real.sqrt (p.den:ℝ)
      = Real.sqrt ((|(q.cov:ℝ)| * Real.sqrt (p.den:ℝ)) ^ 2) :=
        (Real.sqrt_sq (by positivity)).symm
    _ ≤ Real.sqrt ((|(p.cov:ℝ)| * Real.sqrt (q.den:ℝ)) ^ 2) := Real.sqrt_le_sqrt h1
    _ = |(p.cov:ℝ)| * Real.sqrt (q.den:ℝ) := Real.sqrt_sq (by positivity)

/-! ### Order properties of the comparators -/

instance : IsTotal (String × Option CorrRep) absGeRel := by
  constructor
  rintro ⟨na, va⟩ ⟨nb, vb⟩
  unfold absGeRel cmpAbs
  rcases va with _ | p <;> rcases vb with _ | q <;> simp
  exact le_total _ _

instance : IsTrans (String × Option CorrRep) absGeRel := by
  constructor
  rintro ⟨na, va⟩ ⟨nb, vb⟩ ⟨nc, vc⟩ hab hbc
  unfold absGeRel cmpAbs at hab hbc ⊢
  rcases vc with _ | r
  · rcases va with _ | p <;> rcases vb with _ | q <;> simp_all
  · rcases vb with _ | q
    · simp_all
    · rcases va with _ | p
      · simp_all
      · simp only [decide_eq_true_eq] at hab hbc ⊢
        refine le_of_mul_le_mul_right ?_ q.den_pos
        calc r.cov ^ 2 * p.den * q.den
            = r.cov ^ 2 * q.den * p.den := by ring
          _ ≤ q.cov ^ 2 * r.den * p.den := mul_le_mul_of_nonneg_right hbc p.den_pos.le
          _ = q.cov ^ 2 * p.den * r.den := by ring
          _ ≤ p.cov ^ 2 * q.den * r.den := mul_le_mul_of_nonneg_right hab r.den_pos.le
          _ = p.cov ^ 2 * r.den * q.den := by ring

theorem rankedAbs_sorted (df : Table) : (rankedAbs df).Sorted absGeRel :=
  List.sorted_insertionSort absGeRel _

theorem rankedAbs_perm (df : Table) :
    List.Perm (rankedAbs df) ((target_corr df).map (fun x => (x.1, x.2.map absRep))) :=
  List.perm_insertionSort absGeRel _

theorem sortSigned_perm (df : Table) :
    List.Perm (List.insertionSort sgnGeRel (targetSeries df)) (targetSeries df) :=
  List.perm_insertionSort sgnGeRel _

/-- Descending order of real absolute values, `NaN` last: the property
the displayed ranking satisfies. -/
def absValGe (a b : String × Option CorrRep) : Prop :=
  match a.2, b.2 with
  | some p, some q => |corrVal q| ≤ |corrVal p|
  | some _, none => True
  | none, none => True
  | none, some _ => False

theorem absValGe_of_absGeRel {a b : String × Option CorrRep} (h : absGeRel a b) :
    absValGe a b := by
  obtain ⟨na, va⟩ := a; obtain ⟨nb, vb⟩ := b
  unfold absGeRel cmpAbs at h
  unfold absValGe
  rcases va with _ | p <;> rcases vb with _ | q <;> simp_all
  exact corrVal_abs_le_of_cross (by simpa using h)

/-! ### Membership and key lemmas for the ranking pipeline -/

theorem targetSeries_keys (df : Table) : (targetSeries df).map Prod.fst = colNames df := by
  unfold targetSeries colNames
  rw [List.map_map]
  rfl

theorem mem_targetSeries {df : Table} {x : String × Option CorrRep}
    (h : x ∈ targetSeries df) :
    ∃ col ∈ df, x = (col.1, corr col.2 (colOf df targetCol)) := by
  obtain ⟨col, hc, he⟩ := List.mem_map.mp h
  exact ⟨col, hc, he.symm⟩

theorem target_corr_subset_series {df : Table} {x : String × Option CorrRep}
    (h : x ∈ target_corr df) : x ∈ targetSeries df ∧ x.1 ≠ targetCol := by
  unfold target_corr at h
  have h1 := List.mem_filter.mp h
  exact ⟨(sortSigned_perm df).subset h1.1, by simpa using h1.2⟩

theorem mem_rankedAbs {df : Table} {x : String × Option CorrRep}
    (h : x ∈ rankedAbs df) :
    ∃ y ∈ target_corr df, y.1 = x.1 ∧ x.2 = y.2.map absRep := by
  have hx := (rankedAbs_perm df).subset h
  obtain ⟨y, hy, he⟩ := List.mem_map.mp hx
  exact ⟨y, hy, by rw [← he], by rw [← he]⟩

theorem target_corr_keys_nodup {df : Table} (h : (colNames df).Nodup) :
    ((target_corr df).map Prod.fst).Nodup := by
  have h1 : ((List.insertionSort sgnGeRel (targetSeries df)).map Prod.fst).Nodup := by
    refine (List.Perm.nodup_iff ((sortSigned_perm df).map Prod.fst)).mpr ?_
    rw [targetSeries_keys]
    exact h
  exact h1.sublist (List.Sublist.map Prod.fst (List.filter_sublist _))

/-- In a table without duplicate column names, a member of `target_corr`
carries exactly the matrix correlation of its feature with the target. -/
theorem target_corr_value {df : Table} (hnd : (colNames df).Nodup)
    {f : String} {v : Option CorrRep} (h : (f, v) ∈ target_corr df) :
    v = correlation_matrix df f targetCol := by
  obtain ⟨hmem, hne⟩ := target_corr_subset_series h
  obtain ⟨col, hcol, he⟩ := mem_targetSeries hmem
  obtain ⟨cn, cc⟩ := col
  rw [Prod.mk.injEq] at he
  obtain ⟨h1, h2⟩ := he
  subst h1
  subst h2
  unfold correlation_matrix colOf
  have hl : df.lookup f = some cc := lookup_of_mem_nodup hnd hcol
  rw [hl]
  rfl

/-! ### Preprocessing lemmas -/

theorem fillColumn_of_present_nil {cells : List Cell} (h : presentCells cells = []) :
    fillColumn cells = cells := by
  simp only [fillColumn, h]
  rfl

theorem fillColumn_of_present_ne {cells : List Cell} (h : presentCells cells ≠ []) :
    fillColumn cells
      = cells.map (fun c => some (c.getD (meanL (presentCells cells)))) := by
  simp only [fillColumn]
  rw [if_neg (by simpa [List.isEmpty_iff] using h)]

theorem fillColumn_no_missing {cells : List Cell} (h : presentCells cells ≠ []) :
    (none : Cell) ∉ fillColumn cells := by
  rw [fillColumn_of_present_ne h]
  intro hmem
  obtain ⟨c, _, he⟩ := List.mem_map.mp hmem
  exact Option.some_ne_none _ he

theorem fillColumn_keeps {cells : List Cell} (h : presentCells cells ≠ []) {i : ℕ} {q : ℚ}
    (hq : cells[i]? = some (some q)) : (fillColumn cells)[i]? = some (some q) := by
  rw [fillColumn_of_present_ne h, List.getElem?_map, hq]
  rfl

theorem fillColumn_imputes {cells : List Cell} (h : presentCells cells ≠ []) {i : ℕ}
    (hq : cells[i]? = some none) :
    (fillColumn cells)[i]? = some (some (meanL (presentCells cells))) := by
  rw [fillColumn_of_present_ne h, List.getElem?_map, hq]
  rfl

theorem preprocess_ok {df : Table} (h : ∀ c ∈ numerical_cols, c ∈ colNames df) :
    preprocess_data df
      = .ok (numerical_cols.map (fun c => (c, fillColumn (colOf df c)))) := by
  unfold preprocess_data
  rw [if_pos (List.all_eq_true.mpr (fun c hc => by simpa using h c hc))]
  rfl

theorem preprocess_error {df : Table} (h : ∃ c ∈ numerical_cols, c ∉ colNames df) :
    preprocess_data df = .error "KeyError" := by
  unfold preprocess_data
  obtain ⟨c, hc, hnot⟩ := h
  rw [if_neg]
  intro hall
  rw [List.all_eq_true] at hall
  exact hnot (by simpa using hall c hc)

theorem runMain_error {df : Table} (h : preprocess_data df = .error "KeyError") :
    runMain df = .error "KeyError" := by
  unfold runMain
  rw [h]

/-! ### Column scaling (for the algebraic claims) -/

/-- Multiply a cell by a constant (`NaN` stays `NaN`). -/
def scaleCell (c : ℚ) (x : Cell) : Cell := x.map (fun a => c * a)

/-- Multiply one named column of a table by a constant. -/
def scaleTable (df : Table) (nm : String) (c : ℚ) : Table :=
  df.map (fun col => if col.1 = nm then (col.1, col.2.map (scaleCell c)) else col)

theorem validPairs_scale_left (c : ℚ) (xs ys : List Cell) :
    validPairs (xs.map (scaleCell c)) ys
      = (validPairs xs ys).map (fun p => (c * p.1, p.2)) := by
  induction xs generalizing ys with
  | nil => cases ys <;> rfl
  | cons a t ih =>
    cases ys with
    | nil => rfl
    | cons b u =>
      cases a <;> cases b <;> simp [validPairs, scaleCell, List.zip_cons_cons] <;>
        simpa [validPairs] using ih u

theorem meanL_scale (c : ℚ) (l : List ℚ) :
    meanL (l.map (fun x => c * x)) = c * meanL l := by
  unfold meanL
  rw [sum_map_mul, List.length_map, mul_div_assoc]

theorem covD_scale_left (c : ℚ) (as bs : List ℚ) :
    covD (as.map (fun x => c * x)) bs = c * covD as bs := by
  unfold covD
  rw [List.length_map, Finset.mul_sum]
  refine Finset.sum_congr rfl (fun i _ => ?_)
  rw [getD_map_mul, meanL_scale]
  ring

theorem covD_scale_right (c : ℚ) (as bs : List ℚ) :
    covD as (bs.map (fun x => c * x)) = c * covD as bs := by
  rw [covD_comm, covD_scale_left, covD_comm]

theorem corrVal_scale_pos {c : ℚ} (hc : 0 < c) {cov den : ℚ} (hden : 0 < den)
    (h2 : 0 < c ^ 2 * den) :
    corrVal ⟨c * cov, c ^ 2 * den, h2⟩ = corrVal ⟨cov, den, hden⟩ := by
  unfold corrVal
  have hcr : (0:ℝ) < (c:ℝ) := by exact_mod_cast hc
  push_cast
  rw [Real.sqrt_mul (by positivity) ((den : ℝ)), Real.sqrt_sq hcr.le,
      mul_div_mul_left _ _ hcr.ne']

theorem corrVal_scale_neg {c : ℚ} (hc : c < 0) {cov den : ℚ} (hden : 0 < den)
    (h2 : 0 < c ^ 2 * den) :
    corrVal ⟨c * cov, c ^ 2 * den, h2⟩ = -corrVal ⟨cov, den, hden⟩ := by
  unfold corrVal
  have hcr : (c:ℝ) < 0 := by exact_mod_cast hc
  have hdr : (0:ℝ) < (den:ℝ) := by exact_mod_cast hden
  push_cast
  rw [Real.sqrt_mul (by positivity) ((den : ℝ)), Real.sqrt_sq_eq_abs, abs_of_neg hcr]
  have hne : (-(c:ℝ)) * Real.sqrt (den:ℝ) ≠ 0 :=
    mul_ne_zero (neg_ne_zero.mpr hcr.ne) (Real.sqrt_pos.mpr hdr).ne'
  rw [div_eq_iff hne]
  field_simp
  ring

/-- The representation of a correlation after scaling one column. -/
def scaleRep (c : ℚ) (hc : c ≠ 0) (p : CorrRep) : CorrRep :=
  ⟨c * p.cov, c ^ 2 * p.den, mul_pos (by positivity) p.den_pos⟩

theorem mkCorr_scale {c : ℚ} (hc : c ≠ 0) (cov den : ℚ) :
    mkCorr (c * cov) (c ^ 2 * den) = (mkCorr cov den).map (scaleRep c hc) := by
  unfold mkCorr
  have hc2 : 0 < c ^ 2 := by positivity
  by_cases h : 0 < den
  · rw [dif_pos h, dif_pos (mul_pos hc2 h)]
    rfl
  · have hno : ¬ 0 < c ^ 2 * den := by
      intro h2
      exact h (by nlinarith)
    rw [dif_neg h, dif_neg hno]
    rfl

/-- Scaling the left column multiplies the representation through
`scaleRep` (in particular `NaN`-ness is unchanged). -/
theorem corr_scale_left {c : ℚ} (hc : c ≠ 0) (xs ys : List Cell) :
    corr (xs.map (scaleCell c)) ys = (corr xs ys).map (scaleRep c hc) := by
  unfold corr
  rw [validPairs_scale_left]
  have hfst : List.map Prod.fst ((validPairs xs ys).map (fun p : ℚ × ℚ => (c * p.1, p.2)))
      = List.map (fun x => c * x) ((validPairs xs ys).map Prod.fst) := by
    rw [List.map_map, List.map_map]
    rfl
  have hsnd : List.map Prod.snd ((validPairs xs ys).map (fun p : ℚ × ℚ => (c * p.1, p.2)))
      = List.map Prod.snd (validPairs xs ys) := by
    rw [List.map_map]
    rfl
  rw [hfst, hsnd, covD_scale_left, covD_scale_left, covD_scale_right]
  rw [show c * (c * covD ((validPairs xs ys).map Prod.fst) ((validPairs xs ys).map Prod.fst)) *
        covD ((validPairs xs ys).map Prod.snd) ((validPairs xs ys).map Prod.snd)
      = c ^ 2 * (covD ((validPairs xs ys).map Prod.fst) ((validPairs xs ys).map Prod.fst) *
        covD ((validPairs xs ys).map Prod.snd) ((validPairs xs ys).map Prod.snd)) from by ring]
  exact mkCorr_scale hc _ _

theorem corr_scale_val_pos {c : ℚ} (hc : 0 < c) (xs ys : List Cell) :
    (corr (xs.map (scaleCell c)) ys).map corrVal = (corr xs ys).map corrVal := by
  rw [corr_scale_left hc.ne' xs ys, Option.map_map]
  refine congrArg (fun f => Option.map f (corr xs ys)) ?_
  funext p
  exact corrVal_scale_pos hc p.den_pos (mul_pos (by positivity) p.den_pos)

theorem corr_scale_val_neg {c : ℚ} (hc : c < 0) (xs ys : List Cell) :
    (corr (xs.map (scaleCell c)) ys).map corrVal
      = (corr xs ys).map (fun p => -(corrVal p)) := by
  rw [corr_scale_left hc.ne xs ys, Option.map_map]
  refine congrArg (fun f => Option.map f (corr xs ys)) ?_
  funext p
  have hc2 : 0 < c ^ 2 := by
    have := mul_self_pos.mpr hc.ne
    nlinarith
  exact corrVal_scale_neg hc p.den_pos (mul_pos hc2 p.den_pos)

/-- A nonconstant column correlates perfectly with itself. -/
theorem corr_self_val {xs : List Cell} (h : colVarQ xs ≠ 0) :
    (corr xs xs).map corrVal = some 1 := by
  obtain ⟨p, hp, hcov, hden⟩ := corr_self_of_var_ne h
  rw [hp]
  have hv : 0 < colVarQ xs := lt_of_le_of_ne (covD_self_nonneg _) (Ne.symm h)
  have h1 : corrVal p = 1 :=
    corrVal_one_of_sq (by rw [hcov]; exact hv) (by rw [hden, hcov])
  simp [h1]

/-- Looking up a column of a table with one column scaled. -/
theorem colOf_scaleTable (df : Table) (nm : String) (c : ℚ) (a : String) :
    colOf (scaleTable df nm c) a
      = if a = nm then (colOf df a).map (scaleCell c) else colOf df a := by
  unfold colOf scaleTable
  induction df with
  | nil =>
    by_cases h : a = nm <;> simp [List.lookup, h]
  | cons hd tl ih =>
    obtain ⟨k, w⟩ := hd
    simp only [List.map_cons]
    by_cases hak : a = k
    · subst hak
      by_cases hknm : a = nm
      · rw [if_pos hknm]
        simp [List.lookup, hknm]
      · rw [if_neg hknm]
        simp [List.lookup, hknm]
    · have hbeq : (a == k) = false := beq_eq_false_iff_ne.mpr hak
      by_cases hknm : k = nm
      · rw [if_pos hknm]
        simp only [List.lookup, hbeq]
        exact ih
      · rw [if_neg hknm]
        simp only [List.lookup, hbeq]
        exact ih

/-! ### Length and structure lemmas for the ranking -/

theorem target_corr_length (df : Table) :
    (target_corr df).length
      = ((colNames df).filter (fun c => c ≠ targetCol)).length := by
  unfold target_corr
  rw [← List.countP_eq_length_filter, ← List.countP_eq_length_filter,
      (sortSigned_perm df).countP_eq]
  unfold targetSeries colNames
  rw [List.countP_map, List.countP_map]
  rfl

theorem rankedAbs_length (df : Table) :
    (rankedAbs df).length = (target_corr df).length := by
  rw [(rankedAbs_perm df).length_eq, List.length_map]

theorem highest_length (df : Table) :
    (highest_corr_features df).length = min 3 (target_corr df).length := by
  unfold highest_corr_features
  rw [List.length_map, List.length_take, rankedAbs_length]

theorem displayTable_pairwise (df : Table) : (displayTable df).Pairwise absValGe := by
  unfold displayTable
  exact ((rankedAbs_sorted df).sublist (List.take_sublist _ _)).imp
    (fun h => absValGe_of_absGeRel h)

theorem displayTable_no_target (df : Table) :
    targetCol ∉ (displayTable df).map Prod.fst := by
  intro h
  obtain ⟨x, hx, he⟩ := List.mem_map.mp h
  have hx2 : x ∈ rankedAbs df := List.mem_of_mem_take hx
  obtain ⟨y, hy, hkey, _⟩ := mem_rankedAbs hx2
  exact (target_corr_subset_series hy).2 (by rw [hkey, he])

theorem displayTable_length (df : Table) : (displayTable df).length ≤ 10 := by
  unfold displayTable
  simp

theorem analyze_pos {df : Table} (h : targetCol ∈ colNames df) :
    analyze_and_visualize df = Ev.header "체지방율 상관관계 분석" ::
      Ev.rankTable (displayTable df) :: Ev.success (highest_corr_features df) ::
      Ev.heatmap :: (highest_corr_features df).map (scatterEv (target_corr df)) := by
  unfold analyze_and_visualize
  rw [if_pos h]

theorem highest_mem_target_corr {df : Table} {f : String}
    (h : f ∈ highest_corr_features df) : f ∈ (target_corr df).map Prod.fst := by
  unfold highest_corr_features at h
  obtain ⟨x, hx, he⟩ := List.mem_map.mp h
  have hx2 : x ∈ rankedAbs df := List.mem_of_mem_take hx
  obtain ⟨y, hy, hkey, _⟩ := mem_rankedAbs hx2
  exact List.mem_map.mpr ⟨y, hy, by rw [hkey, he]⟩

theorem scatterEv_correct {df : Table} (hnd : (colNames df).Nodup)
    {f : String} (hf : f ∈ (target_corr df).map Prod.fst) :
    scatterEv (target_corr df) f
      = Ev.scatter f (correlation_matrix df f targetCol)
          (if isNegCell (correlation_matrix df f targetCol) then PlotColor.red
           else PlotColor.blue) := by
  obtain ⟨⟨f2, v⟩, hmem, he⟩ := List.mem_map.mp hf
  cases he
  have hv : v = correlation_matrix df f2 targetCol := target_corr_value hnd hmem
  have hl : (target_corr df).lookup f2 = some v :=
    lookup_of_mem_nodup (target_corr_keys_nodup hnd) hmem
  unfold scatterEv
  rw [hl]
  rw [hv]
  rfl

theorem scatter_mem_viz {df : Table} (h : targetCol ∈ colNames df)
    {f : String} (hf : f ∈ highest_corr_features df) :
    scatterEv (target_corr df) f ∈ analyze_and_visualize df := by
  rw [analyze_pos h]
  refine List.mem_cons_of_mem _ (List.mem_cons_of_mem _ (List.mem_cons_of_mem _
    (List.mem_cons_of_mem _ ?_)))
  exact List.mem_map_of_mem _ hf

/-! ### Concrete tables for witnesses and counterexamples -/

/-- Happy-path table (spec §8, scenario 1). -/
def T1 : Table := [("체지방율", [some 10, some 20, some 30, some 40]),
                   ("BMI", [some 15, some 25, some 35, some 45])]

/-- A raw table carrying only the target column. -/
def TOnlyTarget : Table := [("체지방율", [some 1])]

/-- A raw table carrying only one (non-target) allow-listed column. -/
def TMissing : Table := [("신장", [some 1])]

/-- A raw table with no allow-listed column at all. -/
def TForeign : Table := [("foo", [some 1])]

/-- All 14 allow-listed columns present; the 신장 column entirely fails
numeric coercion. -/
def TAllMiss : Table :=
  numerical_cols.map (fun c => (c, if c = "신장" then [none, none] else [some 1, some 2]))

/-- All 14 allow-listed columns present with clean numeric cells. -/
def TAll : Table := numerical_cols.map (fun c => (c, [some 1, some 2]))

/-- A numeric table without the target column. -/
def TnoTarget : Table := [("BMI", [some 1, some 2])]

/-- A numeric table for the determinism witness. -/
def T9 : Table := [("체지방율", [some 1, some 2]), ("BMI", [some 2, some 4])]

/-- Constant target column: its correlations are all `NaN`. -/
def T7 : Table := [("체지방율", [some 1, some 1]), ("BMI", [some 1, some 2])]

/-- Two identical constant columns. -/
def T8 : Table := [("체지방율", [some 5, some 5]), ("BMI", [some 5, some 5])]

/-- Two identical nonconstant columns. -/
def T8id : Table := [("체지방율", [some 1, some 2]), ("BMI", [some 1, some 2])]

/-- Keys of a table built by pairing each allow-listed name with a column. -/
theorem colNames_mapCols (g : String → List Cell) :
    colNames (numerical_cols.map (fun c => (c, g c))) = numerical_cols := by
  unfold colNames
  rw [List.map_map]
  have h : (Prod.fst ∘ fun c => (c, g c)) = id := rfl
  rw [h, List.map_id]

theorem corr_tt_eval : corr [some 10, some 20, some 30, some 40]
    [some 10, some 20, some 30, some 40] = some ⟨500, 250000, by norm_num⟩ := by
  have h3 : (validPairs [some 10, some 20, some 30, some 40]
      [some 10, some 20, some 30, some 40]).map Prod.fst = [10, 20, 30, 40] := rfl
  have h4 : (validPairs [some 10, some 20, some 30, some 40]
      [some 10, some 20, some 30, some 40]).map Prod.snd = [10, 20, 30, 40] := rfl
  unfold corr
  rw [h3, h4]
  norm_num [mkCorr, covD, meanL, Finset.sum_range_succ]

theorem corr_bt_eval : corr [some 15, some 25, some 35, some 45]
    [some 10, some 20, some 30, some 40] = some ⟨500, 250000, by norm_num⟩ := by
  have h3 : (validPairs [some 15, some 25, some 35, some 45]
      [some 10, some 20, some 30, some 40]).map Prod.fst = [15, 25, 35, 45] := rfl
  have h4 : (validPairs [some 15, some 25, some 35, some 45]
      [some 10, some 20, some 30, some 40]).map Prod.snd = [10, 20, 30, 40] := rfl
  unfold corr
  rw [h3, h4]
  norm_num [mkCorr, covD, meanL, Finset.sum_range_succ]

theorem highest_T1_eval : highest_corr_features T1 = ["BMI"] := by
  have hcol : colOf [("체지방율", [some 10, some 20, some 30, some 40]),
      ("BMI", [some 15, some 25, some 35, some 45])] "체지방율"
        = [some 10, some 20, some 30, some 40] := rfl
  simp only [highest_corr_features, rankedAbs, target_corr, targetSeries, T1, targetCol,
    List.map_cons, List.map_nil, hcol, corr_tt_eval, corr_bt_eval]
  norm_num [List.insertionSort, List.orderedInsert, sgnGeRel, cmpSigned, sgnGeB,
    absGeRel, cmpAbs, absRep, List.filter]

/-! ### Claim C1 -/

/-- C1 (counterexample): on a Raw Table that lacks some allow-listed
columns (here: it has only `체지방율`), `preprocess_data` does not drop
the absent columns silently; the projection `df[numerical_cols]` raises
(`Except.error "KeyError"`), so no Numeric Table is produced at all. -/
theorem c1_counterexample : preprocess_data TOnlyTarget = Except.error "KeyError" := rfl

/-- C1 (amended): when every allow-listed name is present in the Raw
Table, the Numeric Table's columns are exactly the 14-name allow-list in
allow-list order (which then coincides with
`allow-list ∩ raw columns`); when any allow-listed name is absent the
stage instead fails with a key error. -/
theorem c1_amended (df : Table) (hall : ∀ c ∈ numerical_cols, c ∈ colNames df) :
    ∃ out, preprocess_data df = Except.ok out
      ∧ out.map Prod.fst = numerical_cols
      ∧ out.map Prod.fst = numerical_cols.filter (fun c => c ∈ colNames df) := by
  refine ⟨_, preprocess_ok hall, ?_, ?_⟩
  · rw [List.map_map]
    have h : (Prod.fst ∘ fun c => (c, fillColumn (colOf df c))) = id := rfl
    rw [h, List.map_id]
  · rw [List.map_map]
    have h : (Prod.fst ∘ fun c => (c, fillColumn (colOf df c))) = id := rfl
    rw [h, List.map_id]
    exact (List.filter_eq_self.mpr (fun c hc => by simpa using hall c hc)).symm

/-- C1 (witness): the amended theorem applied to a concrete table
carrying all 14 allow-listed columns. -/
theorem c1_witness :
    ∃ out, preprocess_data TAll = Except.ok out ∧ out.map Prod.fst = numerical_cols := by
  obtain ⟨out, h1, h2, _⟩ := c1_amended TAll
    (fun c hc => by
      simp only [TAll]
      rw [colNames_mapCols (fun _ => [some 1, some 2])]
      exact hc)
  exact ⟨out, h1, h2⟩

/-! ### Claim C2 -/

/-- C2 (counterexample): with all 14 columns present and the 신장 column
entirely uncoercible, preprocessing succeeds but leaves the 신장 column
as missing cells (`fillna` with a `NaN` mean fills nothing); the column
is not replaced by `0`, and the output still contains missing values. -/
theorem c2_counterexample :
    (preprocess_data TAllMiss).toOption.bind (fun out => out.lookup "신장")
        = some [(none : Cell), none]
      ∧ [(none : Cell), none] ≠ [some 0, some 0] := by
  exact ⟨rfl, by simp⟩

/-- C2 (amended): for a Raw Table with all 14 allow-listed columns,
preprocessing succeeds; in every output column, cells that coerced keep
their value and, provided the column has at least one coercible cell,
every failed cell becomes the mean of the column's coercible cells and
no missing value remains; a column with no coercible cell is returned
unchanged (entirely missing), not replaced by `0`. -/
theorem c2_amended (df : Table) (hall : ∀ c ∈ numerical_cols, c ∈ colNames df) :
    ∃ out, preprocess_data df = Except.ok out ∧
      ∀ col ∈ out,
        (∀ (i : ℕ) (q : ℚ), (colOf df col.1)[i]? = some (some q)
            → col.2[i]? = some (some q))
      ∧ (presentCells (colOf df col.1) ≠ [] →
            (none : Cell) ∉ col.2
          ∧ ∀ (i : ℕ), (colOf df col.1)[i]? = some none →
              col.2[i]? = some (some (meanL (presentCells (colOf df col.1)))))
      ∧ (presentCells (colOf df col.1) = [] → col.2 = colOf df col.1) := by
  refine ⟨_, preprocess_ok hall, ?_⟩
  intro col hcol
  obtain ⟨c, hc, he⟩ := List.mem_map.mp hcol
  subst he
  refine ⟨?_, ?_, ?_⟩
  · intro i q hq
    by_cases hp : presentCells (colOf df c) = []
    · rw [fillColumn_of_present_nil hp]
      exact hq
    · exact fillColumn_keeps hp hq
  · intro hp
    exact ⟨fillColumn_no_missing hp, fun i hi => fillColumn_imputes hp hi⟩
  · exact fillColumn_of_present_nil

/-- C2 (witness): the amended theorem applied to the concrete table whose
신장 column is entirely uncoercible: preprocessing succeeds and the
all-missing column comes back unchanged. -/
theorem c2_witness :
    ∃ out, preprocess_data TAllMiss = Except.ok out
      ∧ ∀ col ∈ out, presentCells (colOf TAllMiss col.1) = []
          → col.2 = colOf TAllMiss col.1 := by
  obtain ⟨out, h1, h2⟩ := c2_amended TAllMiss
    (fun c hc => by
      simp only [TAllMiss]
      rw [colNames_mapCols (fun c => if c = "신장" then [none, none] else [some 1, some 2])]
      exact hc)
  exact ⟨out, h1, fun col hc => (h2 col hc).2.2⟩

/-! ### Claim C6 -/

/-- C6 (counterexample): on a Raw Table with no allow-listed column the
stage does not return an empty table and no `NoFeatures` condition is
reported: the projection raises a key error which escapes `main`
uncaught, so no event list is produced at all. -/
theorem c6_counterexample :
    preprocess_data TForeign = Except.error "KeyError"
      ∧ runMain TForeign = Except.error "KeyError" := ⟨rfl, rfl⟩

/-- C6 (amended): for every Raw Table containing none of the 14
allow-listed columns, `preprocess_data` raises an uncaught key error and
the pipeline aborts during preprocessing; no empty table is returned and
the Presenter reports nothing (there is no `NoFeatures` banner in the
code). -/
theorem c6_amended (df : Table) (h : ∀ c ∈ colNames df, c ∉ numerical_cols) :
    preprocess_data df = Except.error "KeyError"
      ∧ runMain df = Except.error "KeyError" := by
  have hmiss : ∃ c ∈ numerical_cols, c ∉ colNames df := by
    refine ⟨"신장", by simp [numerical_cols], fun hin => ?_⟩
    exact h _ hin (by simp [numerical_cols])
  have hp := preprocess_error hmiss
  exact ⟨hp, runMain_error hp⟩

/-- C6 (witness): the amended theorem applied to a concrete table with a
single foreign column. -/
theorem c6_witness :
    (∀ c ∈ colNames TForeign, c ∉ numerical_cols)
      ∧ runMain TForeign = Except.error "KeyError" := by
  have h : ∀ c ∈ colNames TForeign, c ∉ numerical_cols := by decide
  exact ⟨h, (c6_amended TForeign h).2⟩

/-! ### Claim C10 -/

/-- C10: whenever at least one allow-listed column is absent from the Raw
Table, `preprocess_data` fails with the uncaught key error from the
projection `df[numerical_cols]` and `main` produces no event list: no
partial Numeric Table and no user-visible banner exist on such inputs. -/
theorem c10_uncaught (df : Table) (h : ∃ c ∈ numerical_cols, c ∉ colNames df) :
    preprocess_data df = Except.error "KeyError"
      ∧ runMain df = Except.error "KeyError" := by
  have hp := preprocess_error h
  exact ⟨hp, runMain_error hp⟩

/-- C10 (witness): the theorem applied to a table that has the 신장
column but lacks the other thirteen. -/
theorem c10_witness :
    preprocess_data TMissing = Except.error "KeyError"
      ∧ runMain TMissing = Except.error "KeyError" := by
  exact c10_uncaught TMissing ⟨"체중", by decide, by decide⟩

/-! ### Claim C3 -/

/-- C3: the displayed ranking never contains the target feature, is
limited to 10 rows, and is sorted in descending order of the real
absolute correlation value (`NaN` rows, if any, come last); when the
target column exists, exactly this table is the one rendered. -/
theorem c3_ranking (df : Table) :
    targetCol ∉ (displayTable df).map Prod.fst
      ∧ (displayTable df).length ≤ 10
      ∧ (displayTable df).Pairwise absValGe
      ∧ (targetCol ∈ colNames df →
          Ev.rankTable (displayTable df) ∈ analyze_and_visualize df) := by
  refine ⟨displayTable_no_target df, displayTable_length df,
    displayTable_pairwise df, fun h => ?_⟩
  rw [analyze_pos h]
  exact List.mem_cons_of_mem _ (List.mem_cons_self _ _)

/-- C3 (witness): the displayed ranking of the happy-path table excludes
the target and is the table rendered. -/
theorem c3_witness :
    targetCol ∉ (displayTable T1).map Prod.fst
      ∧ Ev.rankTable (displayTable T1) ∈ analyze_and_visualize T1 := by
  have h := c3_ranking T1
  exact ⟨h.1, h.2.2.2 (by decide)⟩

/-! ### Claim C5 -/

/-- C5: when the Numeric Table lacks the target column, the analyzer
emits exactly the `MissingTarget` error banner: no heatmap and no
scatter plot is rendered. -/
theorem c5_missing_target (df : Table) (h : targetCol ∉ colNames df) :
    analyze_and_visualize df = [Ev.errorMissingTarget]
      ∧ Ev.heatmap ∉ analyze_and_visualize df
      ∧ ∀ f v cl, Ev.scatter f v cl ∉ analyze_and_visualize df := by
  have he : analyze_and_visualize df = [Ev.errorMissingTarget] := by
    unfold analyze_and_visualize
    rw [if_neg h]
  refine ⟨he, ?_, ?_⟩
  · rw [he]
    simp
  · intro f v cl
    rw [he]
    simp

/-- C5 (witness): the theorem applied to a table without the target. -/
theorem c5_witness : analyze_and_visualize TnoTarget = [Ev.errorMissingTarget] :=
  (c5_missing_target TnoTarget (by decide)).1

/-! ### Claim C9 -/

/-- C9: the pipeline is a pure function of the Raw Table: two runs on
equal inputs produce the same event list, the same correlation-matrix
entries, the same ranked correlations and the same top-K selection
(ties included, since the whole computation is deterministic). -/
theorem c9_deterministic (df1 df2 : Table) (h : df1 = df2) :
    runMain df1 = runMain df2
      ∧ (∀ a b, correlation_matrix df1 a b = correlation_matrix df2 a b)
      ∧ target_corr df1 = target_corr df2
      ∧ rankedAbs df1 = rankedAbs df2
      ∧ highest_corr_features df1 = highest_corr_features df2 := by
  subst h
  exact ⟨rfl, fun a b => rfl, rfl, rfl, rfl⟩

/-- C9 (witness): two runs on the same concrete table agree. -/
theorem c9_witness :
    runMain T9 = runMain T9 ∧ highest_corr_features T9 = highest_corr_features T9 := by
  have h := c9_deterministic T9 T9 rfl
  exact ⟨h.1, h.2.2.2.2⟩

/-! ### Claim C4 -/

/-- C4: the top-K selection has length `min 3 (number of non-target
features)`; each selected feature is plotted by a scatter event that
carries its signed correlation with the target (not the absolute value),
and the point color is red exactly when that signed correlation is
defined and negative (blue otherwise, including for `NaN`). -/
theorem c4_topk (df : Table) (ht : targetCol ∈ colNames df)
    (hnd : (colNames df).Nodup) :
    (highest_corr_features df).length
        = min 3 ((colNames df).filter (fun c => c ≠ targetCol)).length
      ∧ ∀ f ∈ highest_corr_features df, ∃ cl,
          scatterEv (target_corr df) f
              = Ev.scatter f (correlation_matrix df f targetCol) cl
        ∧ Ev.scatter f (correlation_matrix df f targetCol) cl ∈ analyze_and_visualize df
        ∧ (cl = PlotColor.red ↔
            ∃ p, correlation_matrix df f targetCol = some p ∧ corrVal p < 0) := by
  constructor
  · rw [highest_length, target_corr_length]
  · intro f hf
    have hkey := highest_mem_target_corr hf
    have hse := scatterEv_correct hnd hkey
    refine ⟨_, hse, ?_, ?_⟩
    · rw [← hse]
      exact scatter_mem_viz ht hf
    · by_cases hneg : isNegCell (correlation_matrix df f targetCol) = true
      · rw [if_pos hneg]
        constructor
        · intro _
          rcases hm : correlation_matrix df f targetCol with _ | p
          · rw [hm] at hneg
            simp [isNegCell] at hneg
          · rw [hm] at hneg
            simp only [isNegCell, decide_eq_true_eq] at hneg
            exact ⟨p, rfl, (corrVal_neg_iff p).mpr hneg⟩
        · intro _
          rfl
      · rw [if_neg hneg]
        constructor
        · intro hc
          exact PlotColor.noConfusion hc
        · rintro ⟨p, hp, hv⟩
          exact absurd (by rw [hp]; simpa [isNegCell] using (corrVal_neg_iff p).mp hv) hneg

/-- C4 (witness): on the happy-path table the selection is `["BMI"]` of
length `min 3 1 = 1`, and its scatter event carries the signed
correlation and a color. -/
theorem c4_witness :
    (highest_corr_features T1).length
        = min 3 ((colNames T1).filter (fun c => c ≠ targetCol)).length
      ∧ ∃ cl, scatterEv (target_corr T1) "BMI"
          = Ev.scatter "BMI" (correlation_matrix T1 "BMI" targetCol) cl := by
  have h := c4_topk T1 (by decide) (by decide)
  obtain ⟨cl, h1, _, _⟩ := h.2 "BMI" (by rw [highest_T1_eval]; exact List.mem_cons_self _ _)
  exact ⟨h.1, cl, h1⟩

/-! ### Claim C7 -/

/-- Matrix entry of the happy-path table used to instantiate the bound. -/
theorem cm_bt_eval :
    correlation_matrix T1 "BMI" "체지방율" = some ⟨500, 250000, by norm_num⟩ := by
  have h1 : colOf T1 "BMI" = [some 15, some 25, some 35, some 45] := rfl
  have h2 : colOf T1 "체지방율" = [some 10, some 20, some 30, some 40] := rfl
  unfold correlation_matrix
  rw [h1, h2]
  exact corr_bt_eval

/-- C7 (counterexample): with a constant target column the diagonal
entry `C[체지방율, 체지방율]` is `NaN` (`none`), so it is not an entry
lying in `[-1, 1]`: the claim that every entry lies in `[-1, 1]` fails. -/
theorem c7_counterexample :
    correlation_matrix T7 "체지방율" "체지방율" = none
      ∧ ¬ ∃ p, correlation_matrix T7 "체지방율" "체지방율" = some p
          ∧ -1 ≤ corrVal p ∧ corrVal p ≤ 1 := by
  have h : correlation_matrix T7 "체지방율" "체지방율" = none := by
    have h2 : colOf T7 "체지방율" = [some 1, some 1] := rfl
    have h3 : (validPairs [some 1, some 1] [some 1, some 1]).map Prod.fst = [1, 1] := rfl
    have h4 : (validPairs [some 1, some 1] [some 1, some 1]).map Prod.snd = [1, 1] := rfl
    unfold correlation_matrix corr
    rw [h2, h3, h4]
    norm_num [mkCorr, covD, meanL, Finset.sum_range_succ]
  refine ⟨h, ?_⟩
  rintro ⟨p, hp, _⟩
  rw [h] at hp
  cases hp

/-- C7 (amended): the Correlation Matrix is symmetric (bit-exact in the
model); every defined (non-`NaN`) entry lies in `[-1, 1]`; and the
diagonal entry of every column with nonzero variance is defined and
equals `1`.  Entries involving a zero-variance column are `NaN`
(`none`) rather than numbers in `[-1, 1]`. -/
theorem c7_amended (df : Table) (a b : String) :
    correlation_matrix df a b = correlation_matrix df b a
      ∧ (∀ p, correlation_matrix df a b = some p → |corrVal p| ≤ 1)
      ∧ (colVarQ (colOf df a) ≠ 0 →
          (correlation_matrix df a a).map corrVal = some 1) := by
  refine ⟨corr_comm _ _, fun p hp => abs_corrVal_le_one (corr_cov_sq_le hp),
    fun h => corr_self_val h⟩

/-- C7 (witness): on the happy-path table the off-diagonal entry is
symmetric, its value obeys the bound, and the `BMI` diagonal is `1`. -/
theorem c7_witness :
    correlation_matrix T1 "BMI" "체지방율" = correlation_matrix T1 "체지방율" "BMI"
      ∧ |corrVal ⟨500, 250000, by norm_num⟩| ≤ 1
      ∧ (correlation_matrix T1 "BMI" "BMI").map corrVal = some 1 := by
  have h := c7_amended T1 "BMI" "체지방율"
  have hd := c7_amended T1 "BMI" "BMI"
  refine ⟨h.1, h.2.1 _ cm_bt_eval, hd.2.2 ?_⟩
  have hp : presentCells (colOf T1 "BMI") = [15, 25, 35, 45] := rfl
  unfold colVarQ
  rw [hp]
  norm_num [covD, meanL, Finset.sum_range_succ]

/-! ### Claim C8 -/

/-- C8 (counterexample): two identical constant columns have correlation
`NaN` (`none`), not `1.0`. -/
theorem c8_counterexample :
    colOf T8 "BMI" = colOf T8 "체지방율"
      ∧ (correlation_matrix T8 "BMI" "체지방율").map corrVal = none
      ∧ (none : Option ℝ) ≠ some 1 := by
  refine ⟨rfl, ?_, by simp⟩
  have h1 : colOf T8 "BMI" = [some 5, some 5] := rfl
  have h2 : colOf T8 "체지방율" = [some 5, some 5] := rfl
  have h3 : (validPairs [some 5, some 5] [some 5, some 5]).map Prod.fst = [5, 5] := rfl
  have h4 : (validPairs [some 5, some 5] [some 5, some 5]).map Prod.snd = [5, 5] := rfl
  unfold correlation_matrix corr
  rw [h1, h2, h3, h4]
  norm_num [mkCorr, covD, meanL, Finset.sum_range_succ]

/-- C8 (amended): identical columns of nonzero variance correlate with
value exactly `1`; multiplying a column by a positive constant leaves
the (real) value of every correlation between it and another column
unchanged (`NaN` included); multiplying by a negative constant flips the
sign of each such value (`NaN` stays `NaN`). -/
theorem c8_amended (df : Table) (nm a : String) (c : ℚ) :
    (∀ b, colOf df a = colOf df b → colVarQ (colOf df a) ≠ 0 →
        (correlation_matrix df a b).map corrVal = some 1)
      ∧ (0 < c → a ≠ nm →
          (correlation_matrix (scaleTable df nm c) a nm).map corrVal
              = (correlation_matrix df a nm).map corrVal
            ∧ (correlation_matrix (scaleTable df nm c) nm a).map corrVal
              = (correlation_matrix df nm a).map corrVal)
      ∧ (c < 0 → a ≠ nm →
          (correlation_matrix (scaleTable df nm c) a nm).map corrVal
              = (correlation_matrix df a nm).map (fun p => -(corrVal p))
            ∧ (correlation_matrix (scaleTable df nm c) nm a).map corrVal
              = (correlation_matrix df nm a).map (fun p => -(corrVal p))) := by
  refine ⟨?_, ?_, ?_⟩
  · intro b hEq hvar
    unfold correlation_matrix
    rw [← hEq]
    exact corr_self_val hvar
  · intro hc hne
    have hs : colOf (scaleTable df nm c) nm = (colOf df nm).map (scaleCell c) := by
      rw [colOf_scaleTable, if_pos rfl]
    have ha : colOf (scaleTable df nm c) a = colOf df a := by
      rw [colOf_scaleTable, if_neg hne]
    constructor
    · unfold correlation_matrix
      rw [hs, ha, corr_comm (colOf df a) ((colOf df nm).map (scaleCell c)),
          corr_scale_val_pos hc, corr_comm (colOf df nm) (colOf df a)]
    · unfold correlation_matrix
      rw [hs, ha]
      exact corr_scale_val_pos hc _ _
  · intro hc hne
    have hs : colOf (scaleTable df nm c) nm = (colOf df nm).map (scaleCell c) := by
      rw [colOf_scaleTable, if_pos rfl]
    have ha : colOf (scaleTable df nm c) a = colOf df a := by
      rw [colOf_scaleTable, if_neg hne]
    constructor
    · unfold correlation_matrix
      rw [hs, ha, corr_comm (colOf df a) ((colOf df nm).map (scaleCell c)),
          corr_scale_val_neg hc, corr_comm (colOf df nm) (colOf df a)]
    · unfold correlation_matrix
      rw [hs, ha]
      exact corr_scale_val_neg hc _ _

/-- C8 (witness): identical nonconstant columns give value `1`; scaling
the `BMI` column of the happy-path table by `2` leaves the value of its
correlation with the target unchanged, and scaling by `-1` negates it. -/
theorem c8_witness :
    (correlation_matrix T8id "BMI" "체지방율").map corrVal = some 1
      ∧ (correlation_matrix (scaleTable T1 "BMI" 2) "체지방율" "BMI").map corrVal
          = (correlation_matrix T1 "체지방율" "BMI").map corrVal
      ∧ (correlation_matrix (scaleTable T1 "BMI" (-1)) "체지방율" "BMI").map corrVal
          = (correlation_matrix T1 "체지방율" "BMI").map (fun p => -(corrVal p)) := by
  refine ⟨?_, ?_, ?_⟩
  · refine (c8_amended T8id "BMI" "BMI" 1).1 "체지방율" rfl ?_
    have hp : presentCells (colOf T8id "BMI") = [1, 2] := rfl
    unfold colVarQ
    rw [hp]
    norm_num [covD, meanL, Finset.sum_range_succ]
  · exact ((c8_amended T1 "BMI" "체지방율" 2).2.1 (by norm_num) (by decide)).1
  · exact ((c8_amended T1 "BMI" "체지방율" (-1)).2.2 (by norm_num) (by decide)).1
